import Mathlib

/-!
Verification of the tabular OCR post-processing functions in
`src/tools/tabular_data_tools.py` (functions `filter_low_conf_extraction`,
`left_is_close`, `top_is_close`, `combine_lines`, `transform_element`,
`realign_text`).

Modelling choices (shallow embedding of the Python code):
* Python strings are modelled as `List Char` (a Python `str` is a sequence of
  code points); `str.split(sep)` with a one-character separator and
  `sep.join(...)` are modelled by `splitChar` / `joinChar` below.
* A table cell is a `Cell`: a Python `int` (arbitrary precision, `Int`), a
  Python `float` (modelled as an exact rational `Rat`; IEEE-754 binary
  rounding is not modelled — all float values reached by the claims are
  small decimals on which Python's arithmetic is exact), or a `str`.
* Python exceptions are modelled with `Except PyErr`; an uncaught exception
  aborts the call with that error, like an exception propagating out of the
  Python function.
* Python `float(...)` parsing is modelled for the forms
  `[ws] [sign] (digits [. digits] | . digits) [ws]`; the exponent, `inf`,
  `nan` and underscore forms accepted by Python do not occur in any input
  considered here.  `int(...)` parsing is `[ws] [sign] digits [ws]`.
* `repr` of a float (used by `str(...)`) prints the exact decimal value with
  the minimal number of fractional digits, and `x.0` for integral floats,
  which agrees with Python's shortest-roundtrip repr on all values reached
  by the claims.
-/

/-- The Python exceptions that the code under scrutiny can raise. -/
inductive PyErr where
  | indexError
  | valueError
  | typeError
  | zeroDivisionError
deriving DecidableEq

/-- Python `s.split(c)` for a single-character separator `c`:
splitting the empty string gives `[""]`, a trailing separator yields a
trailing empty chunk. -/
def splitChar (c : Char) : List Char → List (List Char)
  | [] => [[]]
  | x :: xs =>
    if x = c then [] :: splitChar c xs
    else
      match splitChar c xs with
      | [] => [[x]]
      | s :: rest => (x :: s) :: rest

/-- Python `c.join(chunks)` for a single-character separator `c`. -/
def joinChar (c : Char) : List (List Char) → List Char
  | [] => []
  | [s] => s
  | s :: t :: rest => s ++ c :: joinChar c (t :: rest)

/-- Digits-to-number accumulator for the numeric-string parsers. -/
def natFromDigits (ds : List Char) : Nat :=
  ds.foldl (fun a c => a * 10 + (c.toNat - 48)) 0

/-- Strip leading and trailing whitespace, as Python's `int`/`float`
constructors do before parsing. -/
def stripWs (s : List Char) : List Char :=
  ((s.dropWhile Char.isWhitespace).reverse.dropWhile Char.isWhitespace).reverse

/-- Consume an optional leading sign, returning the sign and the rest. -/
def parseSign : List Char → (Int × List Char)
  | '-' :: rest => (-1, rest)
  | '+' :: rest => (1, rest)
  | s => (1, s)

/-- Python `int(s)` on a string: optional surrounding whitespace, optional
sign, then a nonempty run of decimal digits.  `none` models `ValueError`. -/
def parsePyInt (s : List Char) : Option Int :=
  let t := stripWs s
  let (sg, u) := parseSign t
  let (ds, rest) := u.span Char.isDigit
  if ds = [] ∨ rest ≠ [] then none
  else some (sg * (natFromDigits ds : Int))

/-- Python `float(s)` on a string (decimal forms only, see the header note):
optional surrounding whitespace, optional sign, then `digits`, `digits.`,
`digits.digits` or `.digits`.  The value is the exact rational denoted by
the literal.  `none` models `ValueError`. -/
def parsePyFloat (s : List Char) : Option Rat :=
  let t := stripWs s
  let (sg, u) := parseSign t
  let (ds, rest) := u.span Char.isDigit
  match rest with
  | [] => if ds = [] then none else some ((sg * (natFromDigits ds : Int) : Int) : Rat)
  | '.' :: rest2 =>
    let (fs, rest3) := rest2.span Char.isDigit
    if rest3 ≠ [] then none
    else if ds = [] ∧ fs = [] then none
    else
      some (Rat.divInt (sg * (natFromDigits ds * 10 ^ fs.length + natFromDigits fs : Int))
        ((10 : Int) ^ fs.length))
  | _ => none

/-- A Python value held in one table cell: an `int`, a `float` (exact
rational model) or a `str`. -/
inductive Cell where
  | int : Int → Cell
  | rat : Rat → Cell
  | str : List Char → Cell
deriving DecidableEq

/-- A table row is a Python list of cells. -/
abbrev Row := List Cell

/-- Python `==` on cells: numeric values compare by value across
`int`/`float`, strings compare as strings, and a numeric/string comparison
is `False` (never an error). -/
def Cell.pyEq : Cell → Cell → Bool
  | .int a, .int b => decide (a = b)
  | .int a, .rat q => decide ((a : Rat) = q)
  | .rat q, .int a => decide (q = (a : Rat))
  | .rat p, .rat q => decide (p = q)
  | .str s, .str t => decide (s = t)
  | _, _ => false

/-- Lexicographic (code-point) strict order on Python strings. -/
def strLt : List Char → List Char → Bool
  | [], [] => false
  | [], _ :: _ => true
  | _ :: _, [] => false
  | a :: as, b :: bs => decide (a < b) || (decide (a = b) && strLt as bs)

/-- Python `<` on cells: numeric pairs compare by value, strings
lexicographically, and a mixed numeric/string comparison raises
`TypeError`. -/
def Cell.pyLt : Cell → Cell → Except PyErr Bool
  | .int a, .int b => .ok (decide (a < b))
  | .int a, .rat q => .ok (decide ((a : Rat) < q))
  | .rat p, .int b => .ok (decide (p < (b : Rat)))
  | .rat p, .rat q => .ok (decide (p < q))
  | .str s, .str t => .ok (strLt s t)
  | _, _ => .error .typeError

/-- Python `<=` on cells (for the totally ordered cases `a <= b` iff
`not (b < a)`). -/
def Cell.pyLe (a b : Cell) : Except PyErr Bool :=
  match Cell.pyLt b a with
  | .error e => .error e
  | .ok r => .ok (! r)

/-- Exact rational sum, written with `Rat.divInt` on numerators and
denominators (equal to `p + q`, but evaluates by kernel reduction). -/
def ratAdd (p q : Rat) : Rat :=
  Rat.divInt (p.num * (q.den : Int) + q.num * (p.den : Int)) ((p.den : Int) * (q.den : Int))

/-- Exact rational difference (equal to `p - q`, kernel-reducible). -/
def ratSub (p q : Rat) : Rat :=
  Rat.divInt (p.num * (q.den : Int) - q.num * (p.den : Int)) ((p.den : Int) * (q.den : Int))

/-- Python `+` on cells: numeric addition (`int + int` stays `int`, any
`float` operand gives a `float`), string concatenation, `TypeError`
otherwise. -/
def Cell.pyAdd : Cell → Cell → Except PyErr Cell
  | .int a, .int b => .ok (.int (a + b))
  | .int a, .rat q => .ok (.rat (ratAdd (a : Rat) q))
  | .rat p, .int b => .ok (.rat (ratAdd p (b : Rat)))
  | .rat p, .rat q => .ok (.rat (ratAdd p q))
  | .str s, .str t => .ok (.str (s ++ t))
  | _, _ => .error .typeError

/-- Python `-` on cells: numeric only, `TypeError` otherwise (including
`str - str`). -/
def Cell.pySub : Cell → Cell → Except PyErr Cell
  | .int a, .int b => .ok (.int (a - b))
  | .int a, .rat q => .ok (.rat (ratSub (a : Rat) q))
  | .rat p, .int b => .ok (.rat (ratSub p (b : Rat)))
  | .rat p, .rat q => .ok (.rat (ratSub p q))
  | _, _ => .error .typeError

/-- Python `abs` on cells: numeric only. -/
def Cell.pyAbs : Cell → Except PyErr Cell
  | .int a => .ok (.int (a.natAbs : Int))
  | .rat q => .ok (.rat (if q < 0 then -q else q))
  | .str _ => .error .typeError

/-- `⌊p / q⌋` for rationals, written on cross-multiplied numerators so that
it evaluates by kernel reduction: `p / q = (p.num * q.den) / (q.num * p.den)`
as a quotient of integers, and the floor of an integer quotient is
`Int.fdiv`. -/
def ratFloorDiv (p q : Rat) : Int :=
  Int.fdiv (p.num * (q.den : Int)) (q.num * (p.den : Int))

/-- Python `//` on cells: floor division.  `int // int` is an `int`
(`Int.fdiv`, rounding toward negative infinity like Python); if either
operand is a `float` the result is a `float` with the floored value;
division by zero raises `ZeroDivisionError`; non-numeric operands raise
`TypeError`. -/
def Cell.pyFloordiv : Cell → Cell → Except PyErr Cell
  | .int a, .int b =>
    if b = 0 then .error .zeroDivisionError else .ok (.int (Int.fdiv a b))
  | .int a, .rat q =>
    if q = 0 then .error .zeroDivisionError else .ok (.rat ((ratFloorDiv (a : Rat) q : Int) : Rat))
  | .rat p, .int b =>
    if b = 0 then .error .zeroDivisionError else .ok (.rat ((ratFloorDiv p (b : Rat) : Int) : Rat))
  | .rat p, .rat q =>
    if q = 0 then .error .zeroDivisionError else .ok (.rat ((ratFloorDiv p q : Int) : Rat))
  | _, _ => .error .typeError

/-- Python `min(a, b)`: returns `b` when `b < a`, else `a` (the first
minimal argument), propagating comparison errors. -/
def Cell.pyMin (a b : Cell) : Except PyErr Cell :=
  match Cell.pyLt b a with
  | .error e => .error e
  | .ok true => .ok b
  | .ok false => .ok a

/-- Python `max(a, b)`: returns `b` when `b > a` (i.e. `a < b`), else `a`,
propagating comparison errors. -/
def Cell.pyMax (a b : Cell) : Except PyErr Cell :=
  match Cell.pyLt a b with
  | .error e => .error e
  | .ok true => .ok b
  | .ok false => .ok a

/-- Python `int(x)` on a cell: identity on ints, truncation toward zero on
floats, integer-literal parsing on strings (`ValueError` on failure). -/
def Cell.toIntPy : Cell → Except PyErr Int
  | .int a => .ok a
  | .rat q => .ok (Int.tdiv q.num (q.den : Int))
  | .str s =>
    match parsePyInt s with
    | some n => .ok n
    | none => .error .valueError

/-- Smallest `k` with `d ∣ 10 ^ k`, by fuelled search (`none` when `d` has
a prime factor other than 2 and 5 — unreachable for cells produced by the
parser and the arithmetic above). -/
def decExpAux (d : Nat) : Nat → Nat → Option Nat
  | 0, _ => none
  | fuel + 1, k => if d ∣ 10 ^ k then some k else decExpAux d fuel (k + 1)

/-- Python `repr` of a float whose exact value is the rational `q`:
integral floats print as `n.0`, other decimal values print with the
minimal number of fractional digits (shortest-roundtrip form for the
decimal values reached here). -/
def ratRepr (q : Rat) : List Char :=
  if q.den = 1 then (toString q.num).toList ++ ['.', '0']
  else
    let sgn : List Char := if q.num < 0 then ['-'] else []
    let n := q.num.natAbs
    let d := q.den
    match decExpAux d (d + 1) 0 with
    | none => sgn ++ (toString n).toList ++ '/' :: (toString d).toList
    | some k =>
      let m := n * (10 ^ k / d)
      let ip := m / 10 ^ k
      let fp := m % 10 ^ k
      let fs := (toString fp).toList
      sgn ++ (toString ip).toList ++ '.' :: (List.replicate (k - fs.length) '0' ++ fs)

/-- Python `str(x)` on a cell (as used by the f-string in `combine_lines`
and by the final `str(item)` serialization pass in `realign_text`). -/
def Cell.pyStr : Cell → List Char
  | .int n => (toString n).toList
  | .rat q => ratRepr q
  | .str s => s

/-- `transform_element` from the source: try `float(item)`; on failure
return the string unchanged; on success return `int(num)` when
`num.is_integer()` and the float otherwise. -/
def transform_element (s : List Char) : Cell :=
  match parsePyFloat s with
  | none => .str s
  | some q => if q.den = 1 then .int q.num else .rat q

example : transform_element "85.0".toList = .int 85 := by decide
example : transform_element "90.5".toList = .rat (Rat.divInt 181 2) := by decide
example : transform_element "abc".toList = .str "abc".toList := by decide
example : transform_element "-7".toList = .int (-7) := by decide
example : Cell.pyStr (.rat (85 : Rat)) = "85.0".toList := by decide
example : Cell.pyStr (.rat (Rat.divInt 181 2)) = "90.5".toList := by decide
example : splitChar '\t' "a\tb".toList = ["a".toList, "b".toList] := by decide

/-- `row[i]` on a Python list: `IndexError` when out of range. -/
def rowGet (r : Row) (i : Nat) : Except PyErr Cell :=
  match r[i]? with
  | some c => .ok c
  | none => .error .indexError

/-- Python `==` on two rows (lists): equal length and element-wise
`Cell.pyEq`. -/
def rowEq : Row → Row → Bool
  | [], [] => true
  | a :: as, b :: bs => Cell.pyEq a b && rowEq as bs
  | _, _ => false

/-- Python `realigned.index(item)`: position of the first element equal
(`==`) to `item`, `none` when absent (the source catches the resulting
`ValueError` and skips the pair). -/
def listIndex (l : List Row) (target : Row) : Option Nat :=
  match l with
  | [] => none
  | x :: xs => if rowEq x target then some 0 else (listIndex xs target).map (· + 1)

/-- The string-to-table step shared by `filter_low_conf_extraction` and
`realign_text`:
`lines = data.split('\n'); table = [line.split('\t') for line in lines if line]`. -/
def parseTable (data : List Char) : List (List (List Char)) :=
  ((splitChar '\n' data).filter (· ≠ [])).map (splitChar '\t')

/-- The table-to-string step shared by both functions: join each row with
tabs, then join the rows with newlines. -/
def serializeTable (rows : List (List (List Char))) : List Char :=
  joinChar '\n' (rows.map (joinChar '\t'))

/-- `int(row[10])` as evaluated by the filter comprehension on a raw
(string-cell) row: `IndexError` when the row is shorter than 11 columns,
`ValueError` when the column is not an integer literal. -/
def rowConfE (row : List (List Char)) : Except PyErr Int :=
  match row[10]? with
  | none => .error .indexError
  | some s =>
    match parsePyInt s with
    | some n => .ok n
    | none => .error .valueError

/-- `[row for row in table if int(row[10]) >= conf_threshold]`: the
comprehension evaluates `int(row[10])` row by row and aborts at the first
malformed row. -/
def filterRows (conf_threshold : Int) : List (List (List Char)) →
    Except PyErr (List (List (List Char)))
  | [] => .ok []
  | row :: rest =>
    match rowConfE row with
    | .error e => .error e
    | .ok c =>
      match filterRows conf_threshold rest with
      | .error e => .error e
      | .ok kept => .ok (if conf_threshold ≤ c then row :: kept else kept)

/-- `filter_low_conf_extraction` from the source (the Python default for
`conf_threshold` is 10): split into rows, set the header row aside
(`table[0]` raises `IndexError` when there is no row at all), keep the data
rows whose column 10 parses to an integer `>= conf_threshold`, re-attach
the header and re-serialize. -/
def filter_low_conf_extraction (data : List Char) (conf_threshold : Int) :
    Except PyErr (List Char) :=
  match parseTable data with
  | [] => .error .indexError
  | header :: rows =>
    match filterRows conf_threshold rows with
    | .error e => .error e
    | .ok kept => .ok (serializeTable (header :: kept))

/-- `top_is_close` from the source:
`abs(first_line[7] - second_line[7]) <= distance`. -/
def top_is_close (first_line second_line : Row) (distance : Int) : Except PyErr Bool :=
  match rowGet first_line 7 with
  | .error e => .error e
  | .ok a =>
    match rowGet second_line 7 with
    | .error e => .error e
    | .ok b =>
      match Cell.pySub a b with
      | .error e => .error e
      | .ok d =>
        match Cell.pyAbs d with
        | .error e => .error e
        | .ok ad => Cell.pyLe ad (.int distance)

/-- `left_is_close` from the source: branch on `first_line[6] <
second_line[6]`, then test
`abs((L[6] + L[8]) - R[6]) <= distance` for the leftward line `L` and the
other line `R`. -/
def left_is_close (first_line second_line : Row) (distance : Int) : Except PyErr Bool :=
  match rowGet first_line 6 with
  | .error e => .error e
  | .ok f6 =>
    match rowGet second_line 6 with
    | .error e => .error e
    | .ok s6 =>
      match Cell.pyLt f6 s6 with
      | .error e => .error e
      | .ok true =>
        match rowGet first_line 8 with
        | .error e => .error e
        | .ok f8 =>
          match Cell.pyAdd f6 f8 with
          | .error e => .error e
          | .ok su =>
            match Cell.pySub su s6 with
            | .error e => .error e
            | .ok d =>
              match Cell.pyAbs d with
              | .error e => .error e
              | .ok ad => Cell.pyLe ad (.int distance)
      | .ok false =>
        match rowGet second_line 8 with
        | .error e => .error e
        | .ok s8 =>
          match Cell.pyAdd s6 s8 with
          | .error e => .error e
          | .ok su =>
            match Cell.pySub su f6 with
            | .error e => .error e
            | .ok d =>
              match Cell.pyAbs d with
              | .error e => .error e
              | .ok ad => Cell.pyLe ad (.int distance)

/-- `combine_lines` from the source: compute `left`, `top`, `height` and
`conf` of the merged row, then branch on `left == first_line[6]` to compute
`right_most`, `width` and the space-joined `text`; the result is
`first_line[:6]` extended with the six recomputed cells. -/
def combine_lines (first_line second_line : Row) : Except PyErr Row :=
  match rowGet first_line 6 with
  | .error e => .error e
  | .ok f6 =>
    match rowGet second_line 6 with
    | .error e => .error e
    | .ok s6 =>
      match Cell.pyMin f6 s6 with
      | .error e => .error e
      | .ok left =>
        match rowGet first_line 7 with
        | .error e => .error e
        | .ok f7 =>
          match rowGet second_line 7 with
          | .error e => .error e
          | .ok s7 =>
            match Cell.pyMin f7 s7 with
            | .error e => .error e
            | .ok top =>
              match rowGet first_line 9 with
              | .error e => .error e
              | .ok f9 =>
                match rowGet second_line 9 with
                | .error e => .error e
                | .ok s9 =>
                  match Cell.pyMax f9 s9 with
                  | .error e => .error e
                  | .ok height =>
                    match rowGet first_line 10 with
                    | .error e => .error e
                    | .ok f10 =>
                      match rowGet second_line 10 with
                      | .error e => .error e
                      | .ok s10 =>
                        match Cell.pyAdd f10 s10 with
                        | .error e => .error e
                        | .ok confSum =>
                          match Cell.pyFloordiv confSum (.int 2) with
                          | .error e => .error e
                          | .ok conf =>
                            combineTail first_line second_line f6 s6 left top height conf
where
  /-- `right_most = max(first_line[6] + first_line[8], second_line[6] +
  second_line[8])`, evaluated left to right. -/
  rightMost (first_line second_line : Row) (f6 s6 : Cell) : Except PyErr Cell :=
    match rowGet first_line 8 with
    | .error e => .error e
    | .ok f8 =>
      match rowGet second_line 8 with
      | .error e => .error e
      | .ok s8 =>
        match Cell.pyAdd f6 f8 with
        | .error e => .error e
        | .ok fr =>
          match Cell.pyAdd s6 s8 with
          | .error e => .error e
          | .ok sr => Cell.pyMax fr sr
  /-- The branch of `combine_lines` after `conf`: on `left ==
  first_line[6]` compute `right_most`, `width = abs(right_most - L[6])`
  and the f-string `text` (in that order), then return `first_line[:6]`
  extended with the six new cells. -/
  combineTail (first_line second_line : Row) (f6 s6 left top height conf : Cell) :
      Except PyErr Row :=
    if Cell.pyEq left f6 then
      match rightMost first_line second_line f6 s6 with
      | .error e => .error e
      | .ok right_most =>
        match Cell.pySub right_most f6 with
        | .error e => .error e
        | .ok wd =>
          match Cell.pyAbs wd with
          | .error e => .error e
          | .ok width =>
            match rowGet first_line 11 with
            | .error e => .error e
            | .ok f11 =>
              match rowGet second_line 11 with
              | .error e => .error e
              | .ok s11 =>
                .ok (first_line.take 6 ++
                  [left, top, width, height, conf,
                    .str (Cell.pyStr f11 ++ ' ' :: Cell.pyStr s11)])
    else
      match rightMost first_line second_line f6 s6 with
      | .error e => .error e
      | .ok right_most =>
        match Cell.pySub right_most s6 with
        | .error e => .error e
        | .ok wd =>
          match Cell.pyAbs wd with
          | .error e => .error e
          | .ok width =>
            match rowGet second_line 11 with
            | .error e => .error e
            | .ok s11 =>
              match rowGet first_line 11 with
              | .error e => .error e
              | .ok f11 =>
                .ok (first_line.take 6 ++
                  [left, top, width, height, conf,
                    .str (Cell.pyStr s11 ++ ' ' :: Cell.pyStr f11)])

/-- The state threaded through one pass of `realign_text`'s nested loops:
the `realigned` working list and the `modified` flag. -/
abbrev PassState := List Row × Bool

/-- The body of the innermost loop of `realign_text` for one pair
`(item1, item2)` drawn from the pass's snapshot `table`:
skip the pair when the pages (`item[1]`) differ; test `top_is_close` and
then (short-circuit `and`) `left_is_close`; on success set `modified`,
look both rows up in `realigned` (skipping the pair when either was
already consumed, the caught `ValueError`), and merge: the row with the
smaller `int(item[6])` is replaced by the combination and the other row is
popped. -/
def pairStep (left_distance top_distance : Int) (item1 item2 : Row) (st : PassState) :
    Except PyErr PassState :=
  match rowGet item1 1 with
  | .error e => .error e
  | .ok p1 =>
    match rowGet item2 1 with
    | .error e => .error e
    | .ok p2 =>
      if ¬ Cell.pyEq p1 p2 then .ok st
      else
        match top_is_close item1 item2 top_distance with
        | .error e => .error e
        | .ok false => .ok st
        | .ok true =>
          match left_is_close item1 item2 left_distance with
          | .error e => .error e
          | .ok false => .ok st
          | .ok true =>
            match listIndex st.1 item1 with
            | none => .ok (st.1, true)
            | some first_pos =>
              match listIndex st.1 item2 with
              | none => .ok (st.1, true)
              | some second_pos =>
                match rowGet item1 6 with
                | .error e => .error e
                | .ok c1 =>
                  match Cell.toIntPy c1 with
                  | .error e => .error e
                  | .ok a =>
                    match rowGet item2 6 with
                    | .error e => .error e
                    | .ok c2 =>
                      match Cell.toIntPy c2 with
                      | .error e => .error e
                      | .ok b =>
                        if a < b then
                          match combine_lines item1 item2 with
                          | .error e => .error e
                          | .ok merged =>
                            .ok ((st.1.set first_pos merged).eraseIdx second_pos, true)
                        else
                          match combine_lines item1 item2 with
                          | .error e => .error e
                          | .ok merged =>
                            .ok ((st.1.set second_pos merged).eraseIdx first_pos, true)

/-- `for item2 in table[index+1:]: ...` — fold `pairStep` over the rows
after `item1` in the pass snapshot. -/
def innerFor (left_distance top_distance : Int) (item1 : Row) :
    List Row → PassState → Except PyErr PassState
  | [], st => .ok st
  | item2 :: rest, st =>
    match pairStep left_distance top_distance item1 item2 st with
    | .error e => .error e
    | .ok st' => innerFor left_distance top_distance item1 rest st'

/-- `for index, item1 in enumerate(table): ...` — every `item1` is compared
with the rows after it in the snapshot. -/
def outerFor (left_distance top_distance : Int) :
    List Row → PassState → Except PyErr PassState
  | [], st => .ok st
  | item1 :: rest, st =>
    match innerFor left_distance top_distance item1 rest st with
    | .error e => .error e
    | .ok st' => outerFor left_distance top_distance rest st'

/-- One full pass of the `while modified:` loop: `modified` is reset to
`False` and `realigned` starts as (a copy of) the snapshot `table`. -/
def runPass (left_distance top_distance : Int) (table : List Row) :
    Except PyErr PassState :=
  outerFor left_distance top_distance table (table, false)

theorem Cell.pyEq_refl (c : Cell) : Cell.pyEq c c = true := by
  cases c <;> simp [Cell.pyEq]

theorem rowEq_refl (r : Row) : rowEq r r = true := by
  induction r with
  | nil => rfl
  | cons a as ih => simp [rowEq, Cell.pyEq_refl, ih]

theorem listIndex_lt_length {l : List Row} {t : Row} {i : Nat}
    (h : listIndex l t = some i) : i < l.length := by
  induction l generalizing i with
  | nil => simp [listIndex] at h
  | cons x xs ih =>
    by_cases hx : rowEq x t
    · simp [listIndex, hx] at h
      simp only [List.length_cons]
      omega
    · simp [listIndex, hx] at h
      obtain ⟨j, hj, rfl⟩ := h
      have := ih hj
      simp
      omega

theorem listIndex_ne_none {l : List Row} {t : Row} (h : t ∈ l) :
    listIndex l t ≠ none := by
  induction l with
  | nil => simp at h
  | cons x xs ih =>
    by_cases hx : rowEq x t
    · simp [listIndex, hx]
    · rcases List.mem_cons.mp h with rfl | hmem
      · exact absurd (rowEq_refl t) hx
      · simp only [listIndex, hx, if_false]
        intro hc
        exact ih hmem (Option.map_eq_none'.mp hc)


/-- Invariant carried through one pass with snapshot `T`: while no merge
has happened the working list is still exactly `T`; once `modified` is set
the working list has strictly fewer rows than `T`. -/
abbrev PassInv (T : List Row) (st : PassState) : Prop :=
  (st.2 = false → st.1 = T) ∧ (st.2 = true → st.1.length < T.length)

/-- Case analysis on a successful `pairStep`: either the pair was skipped
(state unchanged), or the pair was close but one operand was already
consumed (only `modified` is set), or a merge happened (one `set`, one
`eraseIdx`). -/
theorem pairStep_shape {left_distance top_distance : Int} {item1 item2 : Row}
    {st st' : PassState}
    (h : pairStep left_distance top_distance item1 item2 st = .ok st') :
    st' = st ∨
    (st' = (st.1, true) ∧
      (listIndex st.1 item1 = none ∨ listIndex st.1 item2 = none)) ∨
    (∃ i j m, listIndex st.1 item1 = some i ∧ listIndex st.1 item2 = some j ∧
      (st' = ((st.1.set i m).eraseIdx j, true) ∨
        st' = ((st.1.set j m).eraseIdx i, true))) := by
  unfold pairStep at h
  repeat' split at h
  all_goals cases h
  all_goals first
    | exact Or.inl rfl
    | exact Or.inr (Or.inl ⟨rfl, Or.inl (by assumption)⟩)
    | exact Or.inr (Or.inl ⟨rfl, Or.inr (by assumption)⟩)
    | exact Or.inr (Or.inr ⟨_, _, _, by assumption, by assumption, Or.inl rfl⟩)
    | exact Or.inr (Or.inr ⟨_, _, _, by assumption, by assumption, Or.inr rfl⟩)

theorem pairStep_inv {left_distance top_distance : Int} {item1 item2 : Row}
    {T : List Row} {st st' : PassState} (h1 : item1 ∈ T) (h2 : item2 ∈ T)
    (hinv : PassInv T st)
    (h : pairStep left_distance top_distance item1 item2 st = .ok st') :
    PassInv T st' := by
  rcases pairStep_shape h with rfl | ⟨rfl, hnone⟩ | ⟨i, j, m, hi, hj, hcase⟩
  · exact hinv
  · refine ⟨by simp, fun _ => ?_⟩
    cases hst : st.2 with
    | false =>
      exfalso
      have hTeq := hinv.1 hst
      rcases hnone with h0 | h0
      · rw [hTeq] at h0; exact listIndex_ne_none h1 h0
      · rw [hTeq] at h0; exact listIndex_ne_none h2 h0
    | true => exact hinv.2 hst
  · have hilt := listIndex_lt_length hi
    have hjlt := listIndex_lt_length hj
    rcases hcase with rfl | rfl
    · refine ⟨by simp, fun _ => ?_⟩
      have hlen : ((st.1.set i m).eraseIdx j).length = st.1.length - 1 := by
        rw [List.length_eraseIdx_of_lt (by simpa using hjlt)]
        simp
      cases hst : st.2 with
      | false =>
        have hLL : st.1.length = T.length := by rw [hinv.1 hst]
        simp only [hlen]
        omega
      | true =>
        have := hinv.2 hst
        simp only [hlen]
        omega
    · refine ⟨by simp, fun _ => ?_⟩
      have hlen : ((st.1.set j m).eraseIdx i).length = st.1.length - 1 := by
        rw [List.length_eraseIdx_of_lt (by simpa using hilt)]
        simp
      cases hst : st.2 with
      | false =>
        have hLL : st.1.length = T.length := by rw [hinv.1 hst]
        simp only [hlen]
        omega
      | true =>
        have := hinv.2 hst
        simp only [hlen]
        omega

theorem innerFor_inv {left_distance top_distance : Int} {item1 : Row}
    {T : List Row} {items : List Row} {st st' : PassState} (h1 : item1 ∈ T)
    (hsub : ∀ r ∈ items, r ∈ T) (hinv : PassInv T st)
    (h : innerFor left_distance top_distance item1 items st = .ok st') :
    PassInv T st' := by
  induction items generalizing st with
  | nil =>
    unfold innerFor at h
    cases h
    exact hinv
  | cons item2 rest ih =>
    unfold innerFor at h
    split at h
    · exact absurd h (by simp)
    · rename_i st1 hstep
      exact ih (fun r hr => hsub r (List.mem_cons_of_mem _ hr))
        (pairStep_inv h1 (hsub item2 (List.mem_cons_self _ _)) hinv hstep) h

theorem outerFor_inv {left_distance top_distance : Int} {T : List Row}
    {rows : List Row} {st st' : PassState} (hsub : ∀ r ∈ rows, r ∈ T)
    (hinv : PassInv T st)
    (h : outerFor left_distance top_distance rows st = .ok st') :
    PassInv T st' := by
  induction rows generalizing st with
  | nil =>
    unfold outerFor at h
    cases h
    exact hinv
  | cons item1 rest ih =>
    unfold outerFor at h
    split at h
    · exact absurd h (by simp)
    · rename_i st1 hstep
      exact ih (fun r hr => hsub r (List.mem_cons_of_mem _ hr))
        (innerFor_inv (hsub item1 (List.mem_cons_self _ _))
          (fun r hr => hsub r (List.mem_cons_of_mem _ hr)) hinv hstep) h

theorem runPass_inv {left_distance top_distance : Int} {T : List Row}
    {st' : PassState} (h : runPass left_distance top_distance T = .ok st') :
    PassInv T st' :=
  outerFor_inv (fun _ hr => hr) ⟨fun _ => rfl, fun hc => by simp at hc⟩ h

/-- A pass that reports a merge strictly shrank the working set. -/
theorem runPass_modified_length {left_distance top_distance : Int}
    {T r : List Row} (h : runPass left_distance top_distance T = .ok (r, true)) :
    r.length < T.length :=
  (runPass_inv h).2 rfl

/-- A pass that reports no merge left the working set exactly as it was. -/
theorem runPass_unmodified {left_distance top_distance : Int} {T r : List Row}
    (h : runPass left_distance top_distance T = .ok (r, false)) : r = T :=
  (runPass_inv h).1 rfl

/-- The `while modified:` loop of `realign_text`, as a function of the
current table: run one pass; on a pass with a merge loop again on the
shrunken working set, on a quiet pass stop.  Total by well-founded
recursion on the working-set size, which every looping pass strictly
decreases (`runPass_modified_length`) — this is exactly the source's
termination argument. -/
def realignTable (left_distance top_distance : Int) (table : List Row) :
    Except PyErr (List Row) :=
  match hp : runPass left_distance top_distance table with
  | .error e => .error e
  | .ok (r, true) => realignTable left_distance top_distance r
  | .ok (r, false) => .ok r
termination_by table.length
decreasing_by exact runPass_modified_length hp

/-- The same loop with explicit fuel: `none` means the fuel ran out before
the fixed point was reached. -/
def realignLoopFuel (left_distance top_distance : Int) :
    Nat → List Row → Option (Except PyErr (List Row))
  | 0, _ => none
  | fuel + 1, table =>
    match runPass left_distance top_distance table with
    | .error e => some (.error e)
    | .ok (r, true) => realignLoopFuel left_distance top_distance fuel r
    | .ok (r, false) => some (.ok r)

theorem realignTable_error {left_distance top_distance : Int} {table : List Row}
    {e : PyErr} (h : runPass left_distance top_distance table = .error e) :
    realignTable left_distance top_distance table = .error e := by
  rw [realignTable]
  split
  · rename_i e2 hp
    rw [h] at hp
    cases hp
    rfl
  · rename_i r hp
    rw [h] at hp
    cases hp
  · rename_i r hp
    rw [h] at hp
    cases hp

theorem realignTable_merge {left_distance top_distance : Int} {table r : List Row}
    (h : runPass left_distance top_distance table = .ok (r, true)) :
    realignTable left_distance top_distance table =
      realignTable left_distance top_distance r := by
  rw [realignTable]
  split
  · rename_i e2 hp
    rw [h] at hp
    cases hp
  · rename_i r2 hp
    rw [h] at hp
    cases hp
    rfl
  · rename_i r2 hp
    rw [h] at hp
    cases hp

theorem realignTable_done {left_distance top_distance : Int} {table r : List Row}
    (h : runPass left_distance top_distance table = .ok (r, false)) :
    realignTable left_distance top_distance table = .ok r := by
  rw [realignTable]
  split
  · rename_i e2 hp
    rw [h] at hp
    cases hp
  · rename_i r2 hp
    rw [h] at hp
    cases hp
  · rename_i r2 hp
    rw [h] at hp
    cases hp
    rfl

theorem realignLoopFuel_complete (left_distance top_distance : Int) :
    ∀ fuel table, table.length < fuel →
      realignLoopFuel left_distance top_distance fuel table =
        some (realignTable left_distance top_distance table) := by
  intro fuel
  induction fuel with
  | zero => intro table h; omega
  | succ f ih =>
    intro table h
    rw [realignLoopFuel]
    rcases hrp : runPass left_distance top_distance table with e | ⟨r, m⟩
    · rw [realignTable_error hrp]
    · cases m with
      | true =>
        rw [realignTable_merge hrp]
        exact ih r (by have := runPass_modified_length hrp; omega)
      | false => rw [realignTable_done hrp]

/-- `realign_text` from the source: split into rows, set the header aside
(`IndexError` when there is no row), convert every cell with
`transform_element`, run the merge loop to its fixed point, convert every
cell back with `str(...)`, re-attach the header and re-serialize. -/
def realign_text (data : List Char) (left_distance top_distance : Int) :
    Except PyErr (List Char) :=
  match parseTable data with
  | [] => .error .indexError
  | header :: rows =>
    match realignTable left_distance top_distance
        (rows.map (List.map transform_element)) with
    | .error e => .error e
    | .ok table => .ok (serializeTable (header :: table.map (List.map Cell.pyStr)))

theorem splitChar_ne_nil (c : Char) (l : List Char) : splitChar c l ≠ [] := by
  cases l with
  | nil => simp [splitChar]
  | cons x xs =>
    unfold splitChar
    split
    · simp
    · split <;> simp

theorem joinChar_splitChar (c : Char) (l : List Char) :
    joinChar c (splitChar c l) = l := by
  induction l with
  | nil => rfl
  | cons x xs ih =>
    unfold splitChar
    by_cases hx : x = c
    · subst hx
      simp only [if_true]
      rcases hs : splitChar x xs with _ | ⟨s, rest⟩
      · exact absurd hs (splitChar_ne_nil x xs)
      · rw [hs] at ih
        simpa [joinChar] using ih
    · simp only [hx, if_false]
      rcases hs : splitChar c xs with _ | ⟨s, rest⟩
      · exact absurd hs (splitChar_ne_nil c xs)
      · rw [hs] at ih
        cases rest with
        | nil => simpa [joinChar] using congrArg (x :: ·) ih
        | cons t rr => simpa [joinChar] using congrArg (x :: ·) ih

theorem splitChar_chunk_not_mem {c : Char} {l s : List Char}
    (h : s ∈ splitChar c l) : c ∉ s := by
  induction l generalizing s with
  | nil =>
    simp [splitChar] at h
    subst h
    simp
  | cons x xs ih =>
    unfold splitChar at h
    by_cases hx : x = c
    · subst hx
      simp only [if_true] at h
      rcases List.mem_cons.mp h with rfl | hmem
      · simp
      · exact ih hmem
    · simp only [hx, if_false] at h
      rcases hs : splitChar c xs with _ | ⟨s0, rest⟩
      · exact absurd hs (splitChar_ne_nil c xs)
      · rw [hs] at h
        rcases List.mem_cons.mp h with rfl | hmem
        · have h0 : c ∉ s0 := ih (hs ▸ List.mem_cons_self _ _)
          intro hc
          rcases List.mem_cons.mp hc with rfl | hc2
          · exact hx rfl
          · exact h0 hc2
        · exact ih (hs ▸ List.mem_cons_of_mem _ hmem)

theorem splitChar_of_not_mem {c : Char} {l : List Char} (h : c ∉ l) :
    splitChar c l = [l] := by
  induction l with
  | nil => rfl
  | cons x xs ih =>
    have hx : ¬ x = c := fun hc => h (hc ▸ List.mem_cons_self _ _)
    have hxs : c ∉ xs := fun hc => h (List.mem_cons_of_mem _ hc)
    unfold splitChar
    simp only [hx, if_false, ih hxs]

theorem splitChar_append_cons {c : Char} {s m : List Char} (h : c ∉ s) :
    splitChar c (s ++ c :: m) = s :: splitChar c m := by
  induction s with
  | nil => simp [splitChar]
  | cons x s0 ih =>
    have hx : ¬ x = c := fun hc => h (hc ▸ List.mem_cons_self _ _)
    have hs0 : c ∉ s0 := fun hc => h (List.mem_cons_of_mem _ hc)
    simp only [List.cons_append, splitChar, if_neg hx, List.append_eq, ih hs0]

theorem splitChar_joinChar {c : Char} {ls : List (List Char)}
    (hmem : ∀ s ∈ ls, c ∉ s) (hne : ls ≠ []) :
    splitChar c (joinChar c ls) = ls := by
  induction ls with
  | nil => exact absurd rfl hne
  | cons s rest ih =>
    cases rest with
    | nil =>
      simp only [joinChar]
      exact splitChar_of_not_mem (hmem s (List.mem_cons_self _ _))
    | cons t rr =>
      have hs : c ∉ s := hmem s (List.mem_cons_self _ _)
      simp only [joinChar]
      rw [splitChar_append_cons hs]
      rw [ih (fun u hu => hmem u (List.mem_cons_of_mem _ hu)) (by simp)]

theorem not_mem_joinChar {c d : Char} {ps : List (List Char)} (hcd : c ≠ d)
    (h : ∀ p ∈ ps, c ∉ p) : c ∉ joinChar d ps := by
  induction ps with
  | nil => simp [joinChar]
  | cons s rest ih =>
    cases rest with
    | nil => exact h s (List.mem_cons_self _ _)
    | cons t rr =>
      simp only [joinChar]
      intro hc
      rcases List.mem_append.mp hc with hc1 | hc2
      · exact h s (List.mem_cons_self _ _) hc1
      · rcases List.mem_cons.mp hc2 with rfl | hc3
        · exact hcd rfl
        · exact ih (fun u hu => h u (List.mem_cons_of_mem _ hu)) hc3

/-- C1: for every two word rows (12-column rows whose numeric fields are
integers, with the nonnegative widths the data model guarantees),
`combine_lines` returns one new row with `left = min` of the lefts,
`top = min` of the tops, `width = max(A.left + A.width, B.left + B.width) -
min(A.left, B.left)`, `height = max` of the heights, `confidence =
floor((A.confidence + B.confidence) / 2)` (Python floor division,
`Int.fdiv`), and `text` the two texts joined by a single space ordered by
ascending `left` (on a tie the first row's text comes first, consistent
with ascending order). -/
theorem combine_lines_spec
    (m1 m2 : Row) (l1 t1 w1 h1 c1 l2 t2 w2 h2 c2 : Int) (s1 s2 : List Char)
    (hm1 : m1.length = 6) (hm2 : m2.length = 6)
    (hw1 : 0 ≤ w1) (hw2 : 0 ≤ w2) :
    combine_lines (m1 ++ [.int l1, .int t1, .int w1, .int h1, .int c1, .str s1])
        (m2 ++ [.int l2, .int t2, .int w2, .int h2, .int c2, .str s2]) =
      .ok (m1 ++ [.int (min l1 l2), .int (min t1 t2),
        .int (max (l1 + w1) (l2 + w2) - min l1 l2), .int (max h1 h2),
        .int (Int.fdiv (c1 + c2) 2),
        .str (if l1 ≤ l2 then s1 ++ ' ' :: s2 else s2 ++ ' ' :: s1)]) := by
  have g1 : ∀ (L : Row) (i : Nat), 6 ≤ i → (m1 ++ L)[i]? = L[i - 6]? := by
    intro L i hi
    rw [List.getElem?_append_right (by omega), hm1]
  have g2 : ∀ (L : Row) (i : Nat), 6 ≤ i → (m2 ++ L)[i]? = L[i - 6]? := by
    intro L i hi
    rw [List.getElem?_append_right (by omega), hm2]
  unfold combine_lines combine_lines.combineTail combine_lines.rightMost rowGet
  simp only [g1 _ 6 (by omega), g1 _ 7 (by omega), g1 _ 8 (by omega),
    g1 _ 9 (by omega), g1 _ 10 (by omega), g1 _ 11 (by omega),
    g2 _ 6 (by omega), g2 _ 7 (by omega), g2 _ 8 (by omega),
    g2 _ 9 (by omega), g2 _ 10 (by omega), g2 _ 11 (by omega)]
  norm_num
  simp only [Cell.pyMin, Cell.pyMax, Cell.pyLt, Cell.pyAdd, Cell.pyFloordiv,
    Cell.pyAbs, Cell.pyEq]
  by_cases hl : l2 < l1 <;> by_cases ht : t2 < t1 <;> by_cases hh : h1 < h2 <;>
    by_cases hr : l1 + w1 < l2 + w2 <;>
    simp only [hl, ht, hh, hr, decide_True, decide_False, Cell.pyStr,
      List.take_left' hm1]
  all_goals simp only [show ((2 : Int) = 0) = False from by simp, if_false,
    decide_eq_true_eq, Cell.pySub]
  all_goals first
    | rw [if_neg (show ¬ l2 = l1 by omega)]
    | rw [if_true]
  all_goals first
    | rw [if_pos (show l1 ≤ l2 by omega)]
    | rw [if_neg (show ¬ l1 ≤ l2 by omega)]
  all_goals simp only [Except.ok.injEq, List.append_cancel_left_eq, List.cons.injEq,
    Cell.int.injEq, Cell.str.injEq, and_true]
  all_goals omega

/-- Witness for C1 at the spec's concrete example: A=(left=0, top=0,
width=10, height=10, conf=90, text="Hello") merged with B=(left=12, top=0,
width=10, height=10, conf=80, text="World") on page 1 yields (left=0,
top=0, width=22, height=10, conf=85, text="Hello World"), with A's leading
six metadata columns. -/
theorem combine_lines_spec_witness :
    combine_lines
        [.int 4, .int 1, .int 0, .int 0, .int 0, .int 1, .int 0, .int 0,
          .int 10, .int 10, .int 90, .str "Hello".toList]
        [.int 4, .int 1, .int 0, .int 0, .int 0, .int 2, .int 12, .int 0,
          .int 10, .int 10, .int 80, .str "World".toList] =
      .ok [.int 4, .int 1, .int 0, .int 0, .int 0, .int 1, .int 0, .int 0,
        .int 22, .int 10, .int 85, .str "Hello World".toList] :=
  (combine_lines_spec [.int 4, .int 1, .int 0, .int 0, .int 0, .int 1]
    [.int 4, .int 1, .int 0, .int 0, .int 0, .int 2] 0 0 10 10 90 12 0 10 10 80
    "Hello".toList "World".toList rfl rfl (by decide) (by decide)).trans
    (congrArg Except.ok (by decide))

/-- C10: `filter_low_conf_extraction` and `realign_text` require at least
one input line.  On the empty string (whose split is `[""]`, filtered to no
lines) and on input consisting only of empty lines, `table[0]` raises
`IndexError` — neither a table nor a domain-specific error is produced. -/
theorem empty_input_index_error (t ld td : Int) :
    filter_low_conf_extraction [] t = .error .indexError ∧
    realign_text [] ld td = .error .indexError ∧
    filter_low_conf_extraction "\n\n".toList t = .error .indexError ∧
    realign_text "\n\n".toList ld td = .error .indexError :=
  ⟨rfl, rfl, rfl, rfl⟩

/-- C7: on a header-only input (one nonempty line, no data rows), both
`filter_low_conf_extraction` and `realign_text` return the input unchanged
and raise no error. -/
theorem header_only_unchanged (h : List Char) (t ld td : Int)
    (hne : h ≠ []) (hnl : '\n' ∉ h) :
    filter_low_conf_extraction h t = .ok h ∧ realign_text h ld td = .ok h := by
  have hp : parseTable h = [splitChar '\t' h] := by
    unfold parseTable
    rw [splitChar_of_not_mem hnl]
    simp [hne]
  have hs : serializeTable [splitChar '\t' h] = h := by
    unfold serializeTable
    simp only [List.map_cons, List.map_nil, joinChar, joinChar_splitChar]
  constructor
  · unfold filter_low_conf_extraction
    rw [hp]
    simp only [filterRows, hs]
  · unfold realign_text
    rw [hp]
    have hloop : realignTable ld td ([] : List Row) = .ok [] :=
      realignTable_done rfl
    simp only [List.map_nil, hloop, hs]

theorem rowGet_ok_length {r : Row} {i : Nat} {c : Cell}
    (h : rowGet r i = .ok c) : i < r.length := by
  unfold rowGet at h
  split at h
  · rename_i hsome
    obtain ⟨hlt, _⟩ := List.getElem?_eq_some_iff.mp hsome
    exact hlt
  · cases h

/-- C9: a successful `combine_lines` carries the first argument's leading
six columns verbatim (`first_line[:6]`), whichever argument is the
leftward record, and recomputes exactly the six columns 6–11 after them;
the model's rows are immutable values, so neither input is modified. -/
theorem combine_lines_frame {r1 r2 out : Row}
    (h : combine_lines r1 r2 = .ok out) :
    out.take 6 = r1.take 6 ∧
    ∃ a b c d e f, out = r1.take 6 ++ [a, b, c, d, e, f] := by
  have h6 : ∃ c6, rowGet r1 6 = .ok c6 := by
    unfold combine_lines at h
    split at h
    · cases h
    · rename_i c6 hc6
      exact ⟨c6, hc6⟩
  obtain ⟨c6, hc6⟩ := h6
  have hlen : (r1.take 6).length = 6 := by
    have := rowGet_ok_length hc6
    simp
    omega
  have hshape : ∃ a b c d e f, out = r1.take 6 ++ [a, b, c, d, e, f] := by
    unfold combine_lines combine_lines.combineTail combine_lines.rightMost at h
    repeat' split at h
    all_goals cases h
    all_goals exact ⟨_, _, _, _, _, _, rfl⟩
  obtain ⟨a, b, c, d, e, f, rfl⟩ := hshape
  refine ⟨?_, a, b, c, d, e, f, rfl⟩
  rw [List.take_left' hlen]

/-- Witness for C9 with the second argument leftward: B=(left=0) merged
into `combine_lines A B` still carries A's metadata columns. -/
theorem combine_lines_frame_witness :
    combine_lines
        [.int 4, .int 1, .int 2, .int 3, .int 5, .int 7, .int 12, .int 0,
          .int 10, .int 10, .int 80, .str "World".toList]
        [.int 9, .int 1, .int 9, .int 9, .int 9, .int 9, .int 0, .int 0,
          .int 10, .int 10, .int 90, .str "Hello".toList] =
      .ok [.int 4, .int 1, .int 2, .int 3, .int 5, .int 7, .int 0, .int 0,
        .int 22, .int 10, .int 85, .str "Hello World".toList] ∧
    ([.int 4, .int 1, .int 2, .int 3, .int 5, .int 7, .int 0, .int 0,
        .int 22, .int 10, .int 85,
        (.str "Hello World".toList : Cell)] : Row).take 6 =
      ([.int 4, .int 1, .int 2, .int 3, .int 5, .int 7, .int 12, .int 0,
        .int 10, .int 10, .int 80, (.str "World".toList : Cell)] : Row).take 6 :=
  ⟨by rfl,
    (@combine_lines_frame
      [.int 4, .int 1, .int 2, .int 3, .int 5, .int 7, .int 12, .int 0,
        .int 10, .int 10, .int 80, .str "World".toList]
      [.int 9, .int 1, .int 9, .int 9, .int 9, .int 9, .int 0, .int 0,
        .int 10, .int 10, .int 90, .str "Hello".toList]
      [.int 4, .int 1, .int 2, .int 3, .int 5, .int 7, .int 0, .int 0,
        .int 22, .int 10, .int 85, .str "Hello World".toList] (by rfl)).1⟩

/-- Witness for C7 at a concrete header line. -/
theorem header_only_unchanged_witness :
    filter_low_conf_extraction "left\ttop\twidth".toList 10 =
        .ok "left\ttop\twidth".toList ∧
      realign_text "left\ttop\twidth".toList 5 5 = .ok "left\ttop\twidth".toList :=
  header_only_unchanged "left\ttop\twidth".toList 10 5 5 (by decide) (by decide)

/-- The confidence column of a raw row, when it exists and parses as a
Python integer. -/
def rowConf? (row : List (List Char)) : Option Int :=
  match row[10]? with
  | none => none
  | some s => parsePyInt s

/-- The predicate `int(row[10]) >= conf_threshold` of the filter
comprehension, as a Boolean on rows whose confidence parses. -/
def keepRow (conf_threshold : Int) (row : List (List Char)) : Bool :=
  match rowConf? row with
  | some c => decide (conf_threshold ≤ c)
  | none => false

theorem rowConfE_eq_ok {row : List (List Char)} {c : Int} :
    rowConfE row = .ok c ↔ rowConf? row = some c := by
  unfold rowConfE rowConf?
  split
  · simp
  · split <;> simp_all

theorem filterRows_eq_filter {conf_threshold : Int}
    {rows : List (List (List Char))}
    (h : ∀ r ∈ rows, (rowConf? r).isSome) :
    filterRows conf_threshold rows = .ok (rows.filter (keepRow conf_threshold)) := by
  induction rows with
  | nil => rfl
  | cons row rest ih =>
    have hr : (rowConf? row).isSome := h row (List.mem_cons_self _ _)
    obtain ⟨c, hc⟩ := Option.isSome_iff_exists.mp hr
    unfold filterRows
    rw [rowConfE_eq_ok.mpr hc, ih (fun r hrr => h r (List.mem_cons_of_mem _ hrr))]
    simp only [List.filter_cons, keepRow, hc]
    by_cases hk : conf_threshold ≤ c
    · rw [if_pos hk]
      simp [hk]
    · rw [if_neg hk]
      simp [hk]

/-- C6: when every data row's column 10 parses as a Python integer,
`filter_low_conf_extraction` returns precisely the header followed by the
subsequence of data rows with `confidence >= conf_threshold`, in the
original order and otherwise unmodified, re-serialized. -/
theorem filter_low_conf_extraction_spec {data : List Char} {conf_threshold : Int}
    {header : List (List Char)} {rows : List (List (List Char))}
    (hp : parseTable data = header :: rows)
    (hok : ∀ r ∈ rows, (rowConf? r).isSome) :
    filter_low_conf_extraction data conf_threshold =
      .ok (serializeTable (header :: rows.filter (keepRow conf_threshold))) := by
  unfold filter_low_conf_extraction
  rw [hp]
  dsimp only
  rw [filterRows_eq_filter hok]

/-- Witness for C6: a two-row table with confidences 20 and 5 and threshold
10 keeps exactly the row with confidence 20. -/
theorem filter_low_conf_extraction_spec_witness :
    filter_low_conf_extraction
        "h\na\tb\tc\td\te\tf\tg\th\ti\tj\t20\tx\na\tb\tc\td\te\tf\tg\th\ti\tj\t5\ty".toList
        10 =
      .ok "h\na\tb\tc\td\te\tf\tg\th\ti\tj\t20\tx".toList :=
  (@filter_low_conf_extraction_spec
      "h\na\tb\tc\td\te\tf\tg\th\ti\tj\t20\tx\na\tb\tc\td\te\tf\tg\th\ti\tj\t5\ty".toList
      10 ["h".toList]
      [splitChar '\t' "a\tb\tc\td\te\tf\tg\th\ti\tj\t20\tx".toList,
        splitChar '\t' "a\tb\tc\td\te\tf\tg\th\ti\tj\t5\ty".toList]
      (by rfl) (by decide)).trans (congrArg Except.ok (by rfl))

theorem filterRows_ok_conf {conf_threshold : Int} {rows f : List (List (List Char))}
    (h : filterRows conf_threshold rows = .ok f) :
    ∀ r ∈ rows, (rowConf? r).isSome := by
  induction rows generalizing f with
  | nil => simp
  | cons row rest ih =>
    unfold filterRows at h
    split at h
    · cases h
    · rename_i c hc
      split at h
      · cases h
      · rename_i kept hkept
        intro r hr
        rcases List.mem_cons.mp hr with rfl | hmem
        · rw [rowConfE_eq_ok.mp hc]
          rfl
        · exact ih hkept r hmem

theorem keepRow_mono {t1 t2 : Int} (hle : t1 ≤ t2) (r : List (List Char))
    (h : keepRow t2 r = true) : keepRow t1 r = true := by
  unfold keepRow at h ⊢
  rcases hc : rowConf? r with _ | c
  · rw [hc] at h
    cases h
  · rw [hc] at h
    simp only [decide_eq_true_eq] at h ⊢
    omega

theorem parseTable_line_facts {data : List Char} {r : List (List Char)}
    (hr : r ∈ parseTable data) :
    joinChar '\t' r ≠ [] ∧ '\n' ∉ joinChar '\t' r := by
  unfold parseTable at hr
  obtain ⟨l, hl, rfl⟩ := List.mem_map.mp hr
  have hl2 := List.mem_filter.mp hl
  rw [joinChar_splitChar]
  refine ⟨by simpa using hl2.2, splitChar_chunk_not_mem hl2.1⟩

theorem splitChar_serializeTable {tbl : List (List (List Char))}
    (hne : tbl ≠ []) (h : ∀ r ∈ tbl, '\n' ∉ joinChar '\t' r) :
    splitChar '\n' (serializeTable tbl) = tbl.map (joinChar '\t') := by
  unfold serializeTable
  apply splitChar_joinChar
  · intro s hs
    obtain ⟨r, hr, rfl⟩ := List.mem_map.mp hs
    exact h r hr
  · simpa using hne

/-- C8: for thresholds `t1 <= t2`, the rows (serialized lines) produced by
the filter at `t2` form a subsequence of those produced at `t1`. -/
theorem filter_low_conf_extraction_monotone {data : List Char} {t1 t2 : Int}
    {s1 s2 : List Char} (hle : t1 ≤ t2)
    (h1 : filter_low_conf_extraction data t1 = .ok s1)
    (h2 : filter_low_conf_extraction data t2 = .ok s2) :
    List.Sublist (splitChar '\n' s2) (splitChar '\n' s1) := by
  unfold filter_low_conf_extraction at h1 h2
  rcases hp : parseTable data with _ | ⟨header, rows⟩
  · rw [hp] at h1
    cases h1
  rw [hp] at h1 h2
  dsimp only at h1 h2
  rcases hf1 : filterRows t1 rows with e | f1
  · rw [hf1] at h1
    cases h1
  have hok := filterRows_ok_conf hf1
  rw [filterRows_eq_filter hok] at h1 h2
  cases h1
  cases h2
  have hmem1 : ∀ r ∈ header :: rows.filter (keepRow t1), r ∈ parseTable data := by
    intro r hr
    rw [hp]
    rcases List.mem_cons.mp hr with rfl | hmemr
    · exact List.mem_cons_self _ _
    · exact List.mem_cons_of_mem _ (List.mem_filter.mp hmemr).1
  have hmem2 : ∀ r ∈ header :: rows.filter (keepRow t2), r ∈ parseTable data := by
    intro r hr
    rw [hp]
    rcases List.mem_cons.mp hr with rfl | hmemr
    · exact List.mem_cons_self _ _
    · exact List.mem_cons_of_mem _ (List.mem_filter.mp hmemr).1
  rw [splitChar_serializeTable (by simp)
    (fun r hr => (parseTable_line_facts (hmem1 r hr)).2)]
  rw [splitChar_serializeTable (by simp)
    (fun r hr => (parseTable_line_facts (hmem2 r hr)).2)]
  exact List.Sublist.map (joinChar '\t')
    (List.Sublist.cons₂ header
      (List.monotone_filter_right rows (fun r h => keepRow_mono hle r h)))

/-- Witness for C8: thresholds 10 and 50 on a table with confidences 20
and 60 — the 50-filtered lines are a subsequence of the 10-filtered
lines. -/
theorem filter_low_conf_extraction_monotone_witness :
    List.Sublist
      (splitChar '\n' "h\na\tb\tc\td\te\tf\tg\th\ti\tj\t60\ty".toList)
      (splitChar '\n'
        "h\na\tb\tc\td\te\tf\tg\th\ti\tj\t20\tx\na\tb\tc\td\te\tf\tg\th\ti\tj\t60\ty".toList) :=
  filter_low_conf_extraction_monotone (by decide)
    (by rfl :
      filter_low_conf_extraction
          "h\na\tb\tc\td\te\tf\tg\th\ti\tj\t20\tx\na\tb\tc\td\te\tf\tg\th\ti\tj\t60\ty".toList
          10 =
        .ok "h\na\tb\tc\td\te\tf\tg\th\ti\tj\t20\tx\na\tb\tc\td\te\tf\tg\th\ti\tj\t60\ty".toList)
    (by rfl :
      filter_low_conf_extraction
          "h\na\tb\tc\td\te\tf\tg\th\ti\tj\t20\tx\na\tb\tc\td\te\tf\tg\th\ti\tj\t60\ty".toList
          50 =
        .ok "h\na\tb\tc\td\te\tf\tg\th\ti\tj\t60\ty".toList)

/-- C2: `realign_text`'s `while modified:` loop always reaches its fixed
point (a full pass with zero merges, or an uncaught exception): running the
fuelled loop with `table.length + 1` passes never runs out of fuel and
agrees with the loop's limit, because each pass that sets `modified`
performed at least one merge and every merge shrinks the working set by
exactly one row, a quantity bounded below. -/
theorem realign_terminates (left_distance top_distance : Int) (table : List Row) :
    realignLoopFuel left_distance top_distance (table.length + 1) table =
      some (realignTable left_distance top_distance table) :=
  realignLoopFuel_complete left_distance top_distance (table.length + 1) table
    (Nat.lt_succ_self _)

/-- C4: two word rows whose page cells (`row[1]`) differ under Python `==`
are never merged, whatever the distance thresholds: the pair is skipped by
the page check in any working state (so no merge between them can happen
in any table), and on a two-row table the realignment loop returns both
rows unchanged. -/
theorem page_isolation (left_distance top_distance : Int) (r1 r2 : Row)
    (c1 c2 : Cell) (h1 : r1[1]? = some c1) (h2 : r2[1]? = some c2)
    (hne : Cell.pyEq c1 c2 = false) :
    (∀ st : PassState,
        pairStep left_distance top_distance r1 r2 st = .ok st) ∧
      realignTable left_distance top_distance [r1, r2] = .ok [r1, r2] := by
  have hstep : ∀ st : PassState,
      pairStep left_distance top_distance r1 r2 st = .ok st := by
    intro st
    simp only [pairStep, rowGet, h1, h2, hne]
    simp
  refine ⟨hstep, ?_⟩
  have hpass : runPass left_distance top_distance [r1, r2] =
      .ok ([r1, r2], false) := by
    simp only [runPass, outerFor, innerFor, hstep ([r1, r2], false)]
  exact realignTable_done hpass

/-- Witness for C4 at the spec's example: rows at (left=10, top=10, page=1)
and (left=11, top=10, page=2) with both distance thresholds 1000 remain
unmerged. -/
theorem page_isolation_witness :
    pairStep 1000 1000
        [.int 5, .int 1, .int 0, .int 0, .int 0, .int 1, .int 10, .int 10,
          .int 5, .int 5, .int 90, .str "a".toList]
        [.int 5, .int 2, .int 0, .int 0, .int 0, .int 1, .int 11, .int 10,
          .int 5, .int 5, .int 90, .str "b".toList]
        ([[.int 5, .int 1, .int 0, .int 0, .int 0, .int 1, .int 10, .int 10,
            .int 5, .int 5, .int 90, .str "a".toList],
          [.int 5, .int 2, .int 0, .int 0, .int 0, .int 1, .int 11, .int 10,
            .int 5, .int 5, .int 90, .str "b".toList]], false) =
      .ok ([[.int 5, .int 1, .int 0, .int 0, .int 0, .int 1, .int 10, .int 10,
          .int 5, .int 5, .int 90, .str "a".toList],
        [.int 5, .int 2, .int 0, .int 0, .int 0, .int 1, .int 11, .int 10,
          .int 5, .int 5, .int 90, .str "b".toList]], false) ∧
    realignTable 1000 1000
        [[.int 5, .int 1, .int 0, .int 0, .int 0, .int 1, .int 10, .int 10,
            .int 5, .int 5, .int 90, .str "a".toList],
          [.int 5, .int 2, .int 0, .int 0, .int 0, .int 1, .int 11, .int 10,
            .int 5, .int 5, .int 90, .str "b".toList]] =
      .ok [[.int 5, .int 1, .int 0, .int 0, .int 0, .int 1, .int 10, .int 10,
          .int 5, .int 5, .int 90, .str "a".toList],
        [.int 5, .int 2, .int 0, .int 0, .int 0, .int 1, .int 11, .int 10,
          .int 5, .int 5, .int 90, .str "b".toList]] := by
  have h := page_isolation 1000 1000
    [.int 5, .int 1, .int 0, .int 0, .int 0, .int 1, .int 10, .int 10,
      .int 5, .int 5, .int 90, .str "a".toList]
    [.int 5, .int 2, .int 0, .int 0, .int 0, .int 1, .int 11, .int 10,
      .int 5, .int 5, .int 90, .str "b".toList]
    (.int 1) (.int 2) rfl rfl rfl
  exact ⟨h.1 _, h.2⟩

/-- C5 (amended): a malformed numeric field aborts the realignment only
when it is actually consumed by a comparison of two same-page rows.  In
particular, when two rows share a page and one row's `top` cell (column 7)
is a non-numeric string while the other's is numeric, `top_is_close`
evaluates `str - int` and the whole realignment aborts with the uncaught
`TypeError`. -/
theorem malformed_compared_field_aborts (left_distance top_distance : Int)
    (r1 r2 : Row) (p t : Int) (s : List Char)
    (h1 : r1[1]? = some (.int p)) (h2 : r2[1]? = some (.int p))
    (h7 : r1[7]? = some (.str s)) (h8 : r2[7]? = some (.int t)) :
    realignTable left_distance top_distance [r1, r2] = .error .typeError := by
  have hpass : runPass left_distance top_distance [r1, r2] =
      .error .typeError := by
    simp only [runPass, outerFor, innerFor, pairStep, rowGet, top_is_close,
      Cell.pyEq, Cell.pySub, h1, h2, h7, h8]
    simp
  exact realignTable_error hpass

/-- Witness for the amended C5: two same-page rows, the first with `top`
cell `"oops"`, abort with `TypeError`. -/
theorem malformed_compared_field_aborts_witness :
    realignTable 5 5
        [[.int 5, .int 1, .int 0, .int 0, .int 0, .int 1, .int 10,
            .str "oops".toList, .int 5, .int 5, .int 90, .str "a".toList],
          [.int 5, .int 1, .int 0, .int 0, .int 0, .int 1, .int 11, .int 10,
            .int 5, .int 5, .int 90, .str "b".toList]] =
      .error .typeError :=
  malformed_compared_field_aborts 5 5
    [.int 5, .int 1, .int 0, .int 0, .int 0, .int 1, .int 10,
      .str "oops".toList, .int 5, .int 5, .int 90, .str "a".toList]
    [.int 5, .int 1, .int 0, .int 0, .int 0, .int 1, .int 11, .int 10,
      .int 5, .int 5, .int 90, .str "b".toList]
    1 10 "oops".toList rfl rfl rfl rfl

/-- Counterexample to C5 as stated: a data row whose confidence column is
the non-numeric string `"abc"` (a malformed numeric field) does NOT abort
`realign_text` — the lone row is never compared, `transform_element`
swallows the conversion failure, and the call returns a complete result. -/
theorem realign_text_malformed_field_no_abort :
    realign_text "h\n5\t1\t0\t0\t0\t1\t10\t10\t10\t10\tabc\tw".toList 5 5 =
      .ok "h\n5\t1\t0\t0\t0\t1\t10\t10\t10\t10\tabc\tw".toList := by
  unfold realign_text
  rw [show parseTable "h\n5\t1\t0\t0\t0\t1\t10\t10\t10\t10\tabc\tw".toList =
    ["h".toList] ::
      [splitChar '\t' "5\t1\t0\t0\t0\t1\t10\t10\t10\t10\tabc\tw".toList] from rfl]
  dsimp only
  rw [realignTable_done (show runPass 5 5
    ([splitChar '\t' "5\t1\t0\t0\t0\t1\t10\t10\t10\t10\tabc\tw".toList].map
      (List.map transform_element)) =
    .ok ([splitChar '\t' "5\t1\t0\t0\t0\t1\t10\t10\t10\t10\tabc\tw".toList].map
      (List.map transform_element), false) from rfl)]
  rfl

theorem realignTable_fix_aux (left_distance top_distance : Int) :
    ∀ (n : Nat) (T T' : List Row), T.length ≤ n →
      realignTable left_distance top_distance T = .ok T' →
      realignTable left_distance top_distance T' = .ok T' := by
  intro n
  induction n with
  | zero =>
    intro T T' hlen h
    have hT : T = [] := List.length_eq_zero.mp (Nat.le_zero.mp hlen)
    subst hT
    rw [realignTable_done (show runPass left_distance top_distance [] =
      .ok ([], false) from rfl)] at h
    cases h
    exact realignTable_done (show runPass left_distance top_distance [] =
      .ok ([], false) from rfl)
  | succ n ih =>
    intro T T' hlen h
    rcases hrp : runPass left_distance top_distance T with e | ⟨r, m⟩
    · rw [realignTable_error hrp] at h
      cases h
    · cases m with
      | true =>
        rw [realignTable_merge hrp] at h
        exact ih r T' (by have := runPass_modified_length hrp; omega) h
      | false =>
        have hrT := runPass_unmodified hrp
        subst hrT
        rw [realignTable_done hrp] at h
        cases h
        exact realignTable_done hrp

/-- C3 (amended): the merge loop is idempotent at the table level — its
fixed point survives a second run unchanged, because the loop only stops
after a pass with zero merges and such a pass returns its input table.
(The string-level composition `realign_text ∘ realign_text` can still
differ from `realign_text`, because re-serialization normalizes numeric
text — see the counterexample.) -/
theorem realignTable_idempotent {left_distance top_distance : Int}
    {T T' : List Row}
    (h : realignTable left_distance top_distance T = .ok T') :
    realignTable left_distance top_distance T' = .ok T' :=
  realignTable_fix_aux left_distance top_distance T.length T T' (Nat.le_refl _) h

theorem realign_text_eq {data : List Char} {left_distance top_distance : Int}
    {header : List (List Char)} {rows : List (List (List Char))} {T : List Row}
    (hp : parseTable data = header :: rows)
    (ht : realignTable left_distance top_distance
        (rows.map (List.map transform_element)) = .ok T) :
    realign_text data left_distance top_distance =
      .ok (serializeTable (header :: T.map (List.map Cell.pyStr))) := by
  unfold realign_text
  rw [hp]
  dsimp only
  rw [ht]

/-- Witness for the amended C3: the fixed point reached from the two-row
"Hello"/"World" table survives a second run of the merge loop unchanged. -/
theorem realignTable_idempotent_witness :
    realignTable 5 0
        [[.int 5, .int 1, .int 0, .int 0, .int 0, .int 1, .int 0, .int 0,
            .int 22, .int 10, .rat (85 : Rat), .str "Hello World".toList]] =
      .ok [[.int 5, .int 1, .int 0, .int 0, .int 0, .int 1, .int 0, .int 0,
          .int 22, .int 10, .rat (85 : Rat), .str "Hello World".toList]] :=
  @realignTable_idempotent 5 0
    [[.int 5, .int 1, .int 0, .int 0, .int 0, .int 1, .int 0, .int 0,
        .int 10, .int 10, .rat (Rat.divInt 181 2), .str "Hello".toList],
      [.int 5, .int 1, .int 0, .int 0, .int 0, .int 2, .int 12, .int 0,
        .int 10, .int 10, .rat (Rat.divInt 159 2), .str "World".toList]]
    [[.int 5, .int 1, .int 0, .int 0, .int 0, .int 1, .int 0, .int 0,
        .int 22, .int 10, .rat (85 : Rat), .str "Hello World".toList]]
    (by
      rw [realignTable_merge (show runPass 5 0
        [[.int 5, .int 1, .int 0, .int 0, .int 0, .int 1, .int 0, .int 0,
            .int 10, .int 10, .rat (Rat.divInt 181 2), .str "Hello".toList],
          [.int 5, .int 1, .int 0, .int 0, .int 0, .int 2, .int 12, .int 0,
            .int 10, .int 10, .rat (Rat.divInt 159 2), .str "World".toList]] =
        .ok ([[.int 5, .int 1, .int 0, .int 0, .int 0, .int 1, .int 0, .int 0,
          .int 22, .int 10, .rat (85 : Rat), .str "Hello World".toList]], true)
        from rfl)]
      exact realignTable_done (show runPass 5 0
        [[.int 5, .int 1, .int 0, .int 0, .int 0, .int 1, .int 0, .int 0,
            .int 22, .int 10, .rat (85 : Rat), .str "Hello World".toList]] =
        .ok ([[.int 5, .int 1, .int 0, .int 0, .int 0, .int 1, .int 0, .int 0,
          .int 22, .int 10, .rat (85 : Rat), .str "Hello World".toList]], false)
        from rfl))

/-- Counterexample to C3 as stated: on the input whose two same-page words
carry the half-integer confidences 90.5 and 79.5, the first realignment
merges them with confidence `(90.5 + 79.5) // 2 = 85.0` (a float) and
serializes it as `"85.0"`; the second realignment re-parses `"85.0"` to the
integer 85 and serializes it as `"85"` — so applying `realign_text` to its
own output does NOT return that output unchanged. -/
theorem realign_text_not_idempotent :
    realign_text
        "h\n5\t1\t0\t0\t0\t1\t0\t0\t10\t10\t90.5\tHello\n5\t1\t0\t0\t0\t2\t12\t0\t10\t10\t79.5\tWorld".toList
        5 0 =
      .ok "h\n5\t1\t0\t0\t0\t1\t0\t0\t22\t10\t85.0\tHello World".toList ∧
    realign_text "h\n5\t1\t0\t0\t0\t1\t0\t0\t22\t10\t85.0\tHello World".toList
        5 0 =
      .ok "h\n5\t1\t0\t0\t0\t1\t0\t0\t22\t10\t85\tHello World".toList ∧
    "h\n5\t1\t0\t0\t0\t1\t0\t0\t22\t10\t85.0\tHello World".toList ≠
      "h\n5\t1\t0\t0\t0\t1\t0\t0\t22\t10\t85\tHello World".toList := by
  refine ⟨?_, ?_, by decide⟩
  · have ht : realignTable 5 0
        (([splitChar '\t' "5\t1\t0\t0\t0\t1\t0\t0\t10\t10\t90.5\tHello".toList,
          splitChar '\t' "5\t1\t0\t0\t0\t2\t12\t0\t10\t10\t79.5\tWorld".toList]).map
          (List.map transform_element)) =
        .ok [[.int 5, .int 1, .int 0, .int 0, .int 0, .int 1, .int 0, .int 0,
          .int 22, .int 10, .rat (85 : Rat), .str "Hello World".toList]] := by
      rw [realignTable_merge (show runPass 5 0
        (([splitChar '\t' "5\t1\t0\t0\t0\t1\t0\t0\t10\t10\t90.5\tHello".toList,
          splitChar '\t' "5\t1\t0\t0\t0\t2\t12\t0\t10\t10\t79.5\tWorld".toList]).map
          (List.map transform_element)) =
        .ok ([[.int 5, .int 1, .int 0, .int 0, .int 0, .int 1, .int 0, .int 0,
          .int 22, .int 10, .rat (85 : Rat), .str "Hello World".toList]], true)
        from rfl)]
      exact realignTable_done (show runPass 5 0
        [[.int 5, .int 1, .int 0, .int 0, .int 0, .int 1, .int 0, .int 0,
            .int 22, .int 10, .rat (85 : Rat), .str "Hello World".toList]] =
        .ok ([[.int 5, .int 1, .int 0, .int 0, .int 0, .int 1, .int 0, .int 0,
          .int 22, .int 10, .rat (85 : Rat), .str "Hello World".toList]], false)
        from rfl)
    exact (realign_text_eq (by rfl) ht).trans (by rfl)
  · have ht : realignTable 5 0
        (([splitChar '\t' "5\t1\t0\t0\t0\t1\t0\t0\t22\t10\t85.0\tHello World".toList]).map
          (List.map transform_element)) =
        .ok (([splitChar '\t' "5\t1\t0\t0\t0\t1\t0\t0\t22\t10\t85.0\tHello World".toList]).map
          (List.map transform_element)) :=
      realignTable_done (show runPass 5 0
        (([splitChar '\t' "5\t1\t0\t0\t0\t1\t0\t0\t22\t10\t85.0\tHello World".toList]).map
          (List.map transform_element)) =
        .ok ((([splitChar '\t' "5\t1\t0\t0\t0\t1\t0\t0\t22\t10\t85.0\tHello World".toList]).map
          (List.map transform_element)), false) from rfl)
    exact (realign_text_eq (by rfl) ht).trans (by rfl)
